import Mathlib

/-!
Verification of the advisor-tree graph engine (src/app.js).

The JavaScript source is shallowly embedded below.  Node ids are `String`,
depths are `Nat`, and the numeric influence/geometry computations use `ℚ`
(the script only performs exact arithmetic on the dataset numbers in the
places the claims talk about).  JavaScript `Map`s built by successive
`set` calls are modelled as association lists where a later `set` shadows
an earlier binding (lookup takes the most recent binding).  JavaScript
`Set`s are modelled as duplicate-free lists in insertion order.
`undefined`/`null` results are modelled with `Option`.  The only falsy
string is the empty string, so JavaScript truthiness tests on ids are
modelled as comparisons with `""`.
-/

namespace AdvisorTree

/-- A node of the input dataset.  Mirrors the fields of `state.nodes`
entries that the graph engine consumes: `id`, `depth`,
`total_descendants` and `direct_advisee_count` (the latter two enter only
the influence score, hence `ℚ`). -/
structure GNode where
  id : String
  depth : Nat
  total_descendants : ℚ
  direct_advisee_count : ℚ
deriving DecidableEq

/-- An edge of the dataset: `src` advised `dst` (the JSON fields `from`
and `to`; `from` is a Lean keyword, hence the renaming). -/
structure GEdge where
  src : String
  dst : String
deriving DecidableEq

/-- The dataset consumed by `initGraph`: `root` id, node list, edge
list. -/
structure Graph where
  root : String
  nodes : List GNode
  edges : List GEdge
deriving DecidableEq

/-- `parentByChild` map of `initGraph` (lines 526-537): for each edge the
source is pushed onto the list keyed by the target, so the parents of
`id` are the sources of the edges into `id`, in edge order. -/
def parentByChild (g : Graph) (id : String) : List String :=
  (g.edges.filter (fun e => e.dst = id)).map (fun e => e.src)

/-- `childrenByParent` map of `initGraph`: the targets of the edges out
of `id`, in edge order. -/
def childrenByParent (g : Graph) (id : String) : List String :=
  (g.edges.filter (fun e => e.src = id)).map (fun e => e.dst)

/-- `depthById` map (line 524): `new Map(nodes.map(n => [n.id, n.depth ?? 0]))`.
A later list entry overwrites an earlier one with the same id, so lookup
takes the last matching node. -/
def depthById (g : Graph) (id : String) : Option Nat :=
  ((g.nodes.filter (fun n => n.id = id)).getLast?).map (fun n => n.depth)

/-- `nodesById` map (line 608): last node with the given id. -/
def nodesById (g : Graph) (id : String) : Option GNode :=
  (g.nodes.filter (fun n => n.id = id)).getLast?

/-- Strict comparison of depths where a missing depth reads as
`Number.POSITIVE_INFINITY` (the `?? Infinity` fallbacks in the source). -/
def dlt : Option Nat → Option Nat → Bool
  | some a, some b => a < b
  | some _, none => true
  | none, _ => false

/-- `===` comparison of the same `?? Infinity` depth reads (two missing
depths compare equal, as `Infinity === Infinity` does). -/
def deq : Option Nat → Option Nat → Bool
  | some a, some b => a = b
  | none, none => true
  | _, _ => false

/-- `getPreferredParent` (lines 130-146): no recorded parents yields
`null`; otherwise a `reduce` keeps the parent with smaller depth,
breaking equal depths by the smaller id, skipping falsy (empty-string)
candidates, with `?? parents[0]` as the final fallback. -/
def getPreferredParent (g : Graph) (nodeId : String) : Option String :=
  let parents := parentByChild g nodeId
  if parents.isEmpty then none
  else
    let best := parents.foldl
      (fun currentBest candidate =>
        if candidate = "" then currentBest
        else
          match currentBest with
          | none => some candidate
          | some cb =>
            if dlt (depthById g candidate) (depthById g cb) then some candidate
            else if deq (depthById g candidate) (depthById g cb) then
              (if candidate < cb then some candidate else some cb)
            else some cb)
      none
    match best with
    | some b => some b
    | none => parents.head?

/-- The parent selection made by one iteration of the `getClusterId`
walk (lines 560-563): the first recorded parent whose depth is strictly
smaller than the current depth, falling back to the first recorded
parent; `none` when there are no recorded parents. -/
def nextParentChoice (g : Graph) (current : String) : Option String :=
  match (parentByChild g current).head? with
  | none => none
  | some p0 =>
    some (((parentByChild g current).find?
      (fun p => dlt (depthById g p) (depthById g current))).getD p0)

/-- The `while (true)` loop of `getClusterId` (lines 553-577), with the
visited set as a duplicate-free list in insertion order.  Returns the
resolved cluster candidate together with the final visited list.  The
loop always terminates because every iteration inserts a previously
unvisited parent id drawn from the edge source list, so with fuel
`g.edges.length + 2` the `0` case is unreachable; it returns the
defensive root fallback with an empty visited list. -/
def clusterWalk (g : Graph) : Nat → List String → String → String × List String
  | 0, _, _ => (g.root, [])
  | fuel + 1, visited, current =>
    match nextParentChoice g current with
    | none => (g.root, visited)
    | some np =>
      if np = "" ∨ np ∈ visited then (g.root, visited)
      else if np = g.root then (current, visited)
      else clusterWalk g fuel (visited ++ [np]) np

/-- The memo cache `clusterCache`: an association list where the most
recent `set` wins. -/
abbrev Cache := List (String × String)

/-- `Map.get` on the cache. -/
def cacheGet (c : Cache) (k : String) : Option String :=
  (c.find? (fun kv => kv.1 = k)).map (fun kv => kv.2)

/-- `Map.set` on the cache (shadows any earlier binding of the key). -/
def cacheSet (c : Cache) (k v : String) : Cache :=
  (k, v) :: c

/-- `getClusterId` (lines 539-587): memo lookup, root short-circuit,
the upward walk, then caching every visited id (only when absent) with
the resolved cluster and finally caching the queried id itself.  The
source line `resolved = clusterCandidate === nodeId ? nodeId : clusterCandidate`
is the identity and is folded away. -/
def getClusterId (g : Graph) (cache : Cache) (nodeId : String) : String × Cache :=
  match cacheGet cache nodeId with
  | some v => (v, cache)
  | none =>
    if nodeId = g.root then (g.root, cacheSet cache nodeId g.root)
    else
      let r := clusterWalk g (g.edges.length + 2) [nodeId] nodeId
      let cache1 := r.2.foldl
        (fun c v =>
          if (cacheGet c v).isSome then c
          else cacheSet c v (if v = g.root then g.root else r.1))
        cache
      (r.1, cacheSet cache1 nodeId r.1)

/-- The cache state after `initGraph` assigned a `clusterId` to every
node (lines 539 and 589-592): the cache is seeded with
`[[rootId, rootId]]` and `getClusterId` is run over the node list in
order. -/
def initClusterCache (g : Graph) : Cache :=
  g.nodes.foldl (fun c n => (getClusterId g c n.id).2) (cacheSet [] g.root g.root)

/-- `clusterOf`: the cluster id `getClusterId` yields against the cache
built by `initGraph`.  For a dataset node this is exactly the
`clusterId` it was assigned in `initGraph`. -/
def clusterOf (g : Graph) (id : String) : String :=
  (getClusterId g (initClusterCache g) id).1

/-- Modelled from the spec (§3 Cluster anchor, quoted by claim C1): the
ancestor found by walking `preferredParent` links upward from a node
until reaching a node whose preferred parent is the root (returning that
node), or the root itself if no such ancestor exists before reaching the
root directly.  Fuel bounds the walk exactly as for `clusterWalk`. -/
def specClusterOf (g : Graph) (fuel : Nat) (current : String) : String :=
  match fuel with
  | 0 => g.root
  | fuel + 1 =>
    if current = g.root then g.root
    else
      match getPreferredParent g current with
      | none => g.root
      | some p => if p = g.root then current else specClusterOf g fuel p

/-- `directAdvisees` as computed at line 601: the nodes whose assigned
cluster id is their own id and that are not the root, in node order. -/
def directAdvisees (g : Graph) : List GNode :=
  g.nodes.filter (fun n => n.id ≠ g.root ∧ clusterOf g n.id = n.id)

/-! ### Concrete datasets used by the claims -/

/-- The §8 example tree: root `R` with direct children `A` and `B`, and
`A` has child `C`; descendant counts faithful to that shape. -/
def g8 : Graph :=
  { root := "R"
    nodes := [⟨"R", 0, 3, 2⟩, ⟨"A", 1, 1, 1⟩, ⟨"B", 1, 0, 0⟩, ⟨"C", 2, 0, 0⟩]
    edges := [⟨"R", "A"⟩, ⟨"R", "B"⟩, ⟨"A", "C"⟩] }

/-- A dataset with a multi-parent node: `X` has parents `M` (depth 2,
listed first) and `B` (depth 1).  The cluster walk takes `M` (first
strictly shallower parent in edge order) while the preferred parent is
`B` (smallest depth). -/
def gMulti : Graph :=
  { root := "R"
    nodes :=
      [⟨"R", 0, 4, 2⟩, ⟨"A", 1, 2, 1⟩, ⟨"B", 1, 1, 1⟩, ⟨"M", 2, 1, 1⟩,
       ⟨"X", 3, 0, 0⟩]
    edges := [⟨"R", "A"⟩, ⟨"R", "B"⟩, ⟨"A", "M"⟩, ⟨"M", "X"⟩, ⟨"B", "X"⟩] }

example : clusterOf gMulti "X" = "A" := by decide
example : specClusterOf gMulti (gMulti.edges.length + 2) "X" = "B" := by decide
example : getPreferredParent gMulti "X" = some "B" := by decide
example : clusterOf g8 "C" = "A" := by decide
example : directAdvisees g8 = [⟨"A", 1, 1, 1⟩, ⟨"B", 1, 0, 0⟩] := by decide

/-! ### Highlight state manager -/

/-- `Set.add`: append the element when it is not already present. -/
def setAdd {α : Type} [DecidableEq α] (l : List α) (x : α) : List α :=
  if x ∈ l then l else l ++ [x]

/-- The `while` loop of `updateLineageHighlight` (lines 176-186).  The
`seen` set and the `lineageNodes` set always hold the same ids, so a
single list plays both roles.  Fuel is bounded exactly as for
`clusterWalk`: every iteration appends an unseen id, each drawn from the
start id or the edge source list. -/
def lineageWalk (g : Graph) :
    Nat → List String → List (String × String) → String →
      List String × List (String × String)
  | 0, ns, es, _ => (ns, es)
  | fuel + 1, ns, es, current =>
    if current = "" ∨ current ∈ ns then (ns, es)
    else
      let ns1 := ns ++ [current]
      if current = g.root then (ns1, es)
      else
        match getPreferredParent g current with
        | none => (ns1, es)
        | some p =>
          if p = "" then (ns1, es)
          else lineageWalk g fuel ns1 (setAdd es (p, current)) p

/-- `updateLineageHighlight` (lines 172-192), restricted to the lineage
sets it computes (the CSS class application reads them unchanged).  A
falsy selected id leaves both sets empty; otherwise the walk runs and
the root is always added to the node set afterwards.  Edge keys
`"src|dst"` are modelled as pairs. -/
def updateLineageHighlight (g : Graph) (nodeId : Option String) :
    List String × List (String × String) :=
  match nodeId with
  | none => ([], [])
  | some id =>
    if id = "" then ([], [])
    else
      let r := lineageWalk g (g.edges.length + 2) [] [] id
      (setAdd r.1 g.root, r.2)

/-- `applyHoverHighlight` (lines 200-238), restricted to the related
node/edge sets it computes: the hovered node, its truthy preferred
parent with the edge `(parent, hovered)`, and every direct child with
the edge `(hovered, child)`. -/
def applyHoverHighlight (g : Graph) (nodeId : Option String) :
    List String × List (String × String) :=
  match nodeId with
  | none => ([], [])
  | some id =>
    if id = "" then ([], [])
    else
      let base :=
        match getPreferredParent g id with
        | none => ([id], ([] : List (String × String)))
        | some p =>
          if p = "" then ([id], ([] : List (String × String)))
          else (setAdd [id] p, [(p, id)])
      (childrenByParent g id).foldl
        (fun acc c => (setAdd acc.1 c, setAdd acc.2 (id, c))) base

example : updateLineageHighlight g8 (some "C") =
    (["C", "A", "R"], [("A", "C"), ("R", "A")]) := by decide
example : applyHoverHighlight g8 (some "B") = (["B", "R"], [("R", "B")]) := by
  decide
example : applyHoverHighlight g8 (some "A") =
    (["A", "R", "C"], [("R", "A"), ("A", "C")]) := by decide

/-! ### Selection state -/

/-- The pieces of `state`/`graphState`/DOM state that `selectNode`
writes: the stored selection, the lineage sets, the graph highlight
classes, and which node the profile card and homepage preview show. -/
structure UIState where
  selectedNodeId : Option String
  lineageNodes : List String
  lineageEdges : List (String × String)
  highlightedId : Option String
  profileCardFor : Option String
  previewFor : Option String
deriving DecidableEq

/-- `selectNode` (lines 865-882).  A falsy id returns immediately.  A
truthy id is stored in `state.selectedNodeId` before the node lookup;
when the id is absent from `state.nodes` the function returns with only
that field changed.  Camera focus (the `options.focus` branch) touches
no field modelled here. -/
def selectNode (g : Graph) (st : UIState) (nodeId : Option String) : UIState :=
  match nodeId with
  | none => st
  | some id =>
    if id = "" then st
    else
      let st1 := { st with selectedNodeId := some id }
      match g.nodes.find? (fun n => n.id = id) with
      | none => st1
      | some _ =>
        let lin := updateLineageHighlight g (some id)
        { st1 with
            lineageNodes := lin.1
            lineageEdges := lin.2
            highlightedId := some id
            profileCardFor := some id
            previewFor := some id }

/-! ### Graph initialization outcome -/

/-- The externally visible steps of `initGraph` in source order:
clearing the canvas (line 497), joining the node/link selections into
the DOM (lines 668-737), creating the force simulation (line 756), and
the error panel `showGraphError` paints when `init` catches an exception
(lines 351-356 and 987-997, replacing the container content). -/
inductive InitEffect
  | clearCanvas
  | appendGraphDom
  | simulationCreated
  | errorPanel
deriving DecidableEq

/-- Whether every edge endpoint names a node of the dataset.  Modelled
from the spec together with the documented behaviour of
`d3.forceLink(links).id(...)` at lines 756-758: d3 resolves each link
endpoint against the node list when the link force is installed and
throws on a missing id; `initGraph` itself never validates endpoints. -/
def linkEndpointsValid (g : Graph) : Bool :=
  g.edges.all (fun e =>
    (g.nodes.any (fun n => n.id = e.src)) && (g.nodes.any (fun n => n.id = e.dst)))

/-- The effect sequence `initGraph` produces.  The DOM join happens
before the simulation is created, so a dataset with an unknown edge
endpoint still appends the graph DOM; the throw from the link force then
aborts `initGraph` and the catch in `init` paints the error panel over
the container. -/
def initGraphEffects (g : Graph) : List InitEffect :=
  if linkEndpointsValid g then
    [InitEffect.clearCanvas, InitEffect.appendGraphDom, InitEffect.simulationCreated]
  else
    [InitEffect.clearCanvas, InitEffect.appendGraphDom, InitEffect.errorPanel]

/-! ### Camera controller -/

/-- The pan/zoom transform `graphState.currentTransform`: uniform scale
`k` and translation `(tx, ty)`. -/
structure Transform where
  k : ℚ
  tx : ℚ
  ty : ℚ
deriving DecidableEq

/-- A simulation node as the camera sees it: its id and its current
position, with `none` standing for a position that is not numerically
finite (`Number.isFinite` fails).  Finite doubles are modelled as exact
rationals. -/
structure CamNode where
  id : String
  pos : Option (ℚ × ℚ)
deriving DecidableEq

/-- An axis-aligned bounding box. -/
structure Bounds where
  minX : ℚ
  maxX : ℚ
  minY : ℚ
  maxY : ℚ
deriving DecidableEq

/-- `getGraphBounds` (lines 273-287): `null` when the node map is empty
or no node has a finite position, otherwise the bounding box of the
finite positions (the redundant finiteness re-check of the extrema
cannot fail over ℚ). -/
def getGraphBounds (nodes : List CamNode) : Option Bounds :=
  if nodes.isEmpty then none
  else
    match nodes.filterMap (fun n => n.pos) with
    | [] => none
    | p :: ps =>
      some (ps.foldl
        (fun b q =>
          { minX := min b.minX q.1, maxX := max b.maxX q.1
            minY := min b.minY q.2, maxY := max b.maxY q.2 })
        { minX := p.1, maxX := p.1, minY := p.2, maxY := p.2 })

/-- `focusGraphBounds` (lines 289-309).  `ready` models the
`!graphState.svg || !graphState.zoom` guard.  Returns the success flag
together with the (possibly unchanged) `currentTransform`.  The animated
transition is not modelled; the transform it targets is. -/
def focusGraphBounds (ready : Bool) (width height : ℚ) (nodes : List CamNode)
    (t : Transform) (padding maxScale : ℚ) : Bool × Transform :=
  if !ready then (false, t)
  else
    match getGraphBounds nodes with
    | none => (false, t)
    | some b =>
      if width = 0 ∨ height = 0 then (false, t)
      else
        let boundsWidth := max 1 (b.maxX - b.minX)
        let boundsHeight := max 1 (b.maxY - b.minY)
        let scaleX := width / (boundsWidth + padding)
        let scaleY := height / (boundsHeight + padding)
        let targetScale := min maxScale (min scaleX scaleY)
        let clampedScale := min 2 (max (35 / 100) targetScale)
        let centerX := (b.minX + b.maxX) / 2
        let centerY := (b.minY + b.maxY) / 2
        (true,
         { k := clampedScale
           tx := width / 2 - centerX * clampedScale
           ty := height / 2 - centerY * clampedScale })

/-! ### Influence score and link force -/

/-- `computeInfluenceScore` (lines 72-77):
`total_descendants + 0.5 * direct_advisee_count`. -/
def computeInfluenceScore (n : GNode) : ℚ :=
  n.total_descendants + n.direct_advisee_count * (1 / 2)

/-- `normalizeValue` (lines 79-82). -/
def normalizeValue (value maxValue : ℚ) : ℚ :=
  if maxValue = 0 then 0
  else if value ≤ 0 then 0
  else min 1 (value / maxValue)

/-- `normalizeInfluence` (lines 84-88). -/
def normalizeInfluence (n : Option GNode) (maxInfluence : ℚ) : ℚ :=
  match n with
  | none => 0
  | some node =>
    if maxInfluence = 0 then 0
    else normalizeValue (computeInfluenceScore node) maxInfluence

/-- `graphState.maxInfluence` (line 605): `d3.max` of the influence
scores over all nodes, `?? 0` on an empty list. -/
def maxInfluence (g : Graph) : ℚ :=
  match g.nodes.map computeInfluenceScore with
  | [] => 0
  | s :: ss => ss.foldl max s

/-- The base separation distance of `linkDistance` (lines 745-748),
before the influence multiplier. -/
def linkBaseDistance (g : Graph) (src dst : String) : ℚ :=
  let sourceDepth := (depthById g src).getD 0
  let targetDepth := (depthById g dst).getD 0
  if sourceDepth = 0 then 220
  else if sourceDepth = 1 ∧ 1 < targetDepth then 160
  else 90 + (targetDepth : ℚ) * 30

/-- `linkDistance` (lines 740-754): the base distance scaled by
`1 + 0.6 ×` the normalized influence of the source node. -/
def linkDistance (g : Graph) (src dst : String) : ℚ :=
  let influenceBoost := normalizeInfluence (nodesById g src) (maxInfluence g)
  linkBaseDistance g src dst * (1 + influenceBoost * (6 / 10))

/-! ### Cluster layout planner -/

/-- The `forEach((node, index) => ...)` body of `computeClusterCenters`
(lines 101-109): place each direct advisee on the circle at its angle
index, with the radius inflated by the influence boost. -/
def placeAdvisee (cosF sinF : ℚ → ℚ) (center : ℚ × ℚ)
    (baseRadius maxInf count : ℚ) :
    Nat → List GNode → List (String × (ℚ × ℚ))
  | _, [] => []
  | index, n :: rest =>
    let turn := (index : ℚ) / count - 1 / 4
    let influenceBoost := normalizeInfluence (some n) maxInf
    let radius := baseRadius * (1 + influenceBoost * (6 / 10))
    (n.id, (center.1 + cosF turn * radius, center.2 + sinF turn * radius)) ::
      placeAdvisee cosF sinF center baseRadius maxInf count (index + 1) rest

/-- `computeClusterCenters` (lines 90-111), parametric in the cosine and
sine used for the angular placement.  `cosF`/`sinF` take the angle in
turns (the source angle `(index / count) * 2π - π/2` is the turn
fraction `index / count - 1/4`), so that exact values can be supplied
for the angles a concrete dataset uses. -/
def computeClusterCenters (cosF sinF : ℚ → ℚ) (width height : ℚ)
    (advisees : List GNode) (rootId : String) : List (String × (ℚ × ℚ)) :=
  let center : ℚ × ℚ := (width / 2, height / 2)
  if advisees.isEmpty then [(rootId, center)]
  else
    let baseRadius := min width height * (32 / 100)
    let m0 := advisees.foldl (fun mx n => max mx (computeInfluenceScore n)) 0
    let maxInf := if m0 = 0 then 1 else m0
    (rootId, center) ::
      placeAdvisee cosF sinF center baseRadius maxInf
        ((advisees.length : ℚ)) 0 advisees

/-- Lookup in the centers map; successive `Map.set` calls mean the last
binding wins. -/
def centersGet (cs : List (String × (ℚ × ℚ))) (k : String) : Option (ℚ × ℚ) :=
  ((cs.filter (fun kv => kv.1 = k)).getLast?).map (fun kv => kv.2)

/-- Modelled from the spec: exact unit-circle cosine at a rational
number of turns, defined at the quarter-turn multiples that a layout
with at most four direct children evaluates (the source calls the
transcendental `Math.cos`; only these angles arise in the §8 example). -/
def cosTurn (t : ℚ) : ℚ :=
  if t = -(1 / 4) ∨ t = 1 / 4 then 0
  else if t = 1 / 2 ∨ t = -(1 / 2) then -1
  else 1

/-- Modelled from the spec: exact unit-circle sine at a rational number
of turns, defined at the quarter-turn multiples (see `cosTurn`). -/
def sinTurn (t : ℚ) : ℚ :=
  if t = -(1 / 4) then -1
  else if t = 1 / 4 then 1
  else 0

/-! ### Basic lemmas -/

theorem mem_setAdd_self {α : Type} [DecidableEq α] (l : List α) (x : α) :
    x ∈ setAdd l x := by
  unfold setAdd
  by_cases h : x ∈ l
  · simp [h]
  · simp [h]

theorem mem_setAdd_iff {α : Type} [DecidableEq α] (l : List α) (x y : α) :
    y ∈ setAdd l x ↔ y ∈ l ∨ y = x := by
  unfold setAdd
  by_cases h : x ∈ l
  · simp only [if_pos h]
    constructor
    · exact Or.inl
    · rintro (hy | rfl) <;> [exact hy; exact h]
  · simp [if_neg h]

/-- A dataset with an edge whose target `Z` is not in the node list. -/
def gBad : Graph :=
  { root := "R"
    nodes := [⟨"R", 0, 3, 2⟩, ⟨"A", 1, 1, 1⟩, ⟨"B", 1, 0, 0⟩, ⟨"C", 2, 0, 0⟩]
    edges := [⟨"R", "A"⟩, ⟨"R", "B"⟩, ⟨"A", "C"⟩, ⟨"A", "Z"⟩] }

/-! ### Claim C1 -/

/-- C1 counterexample: in `gMulti` the node `X` has parents `[M, B]`
(edge order), `M` at depth 2 and `B` at depth 1.  The cluster walk
takes the first strictly shallower parent `M`, landing in cluster `A`,
while the preferred-parent chain goes through `B` (minimal depth) and
yields `B`, so `clusterOf` does not equal the preferred-parent walk and
the two walks do not choose the same parent at every step. -/
theorem claim_C1_counterexample :
    clusterOf gMulti "X" = "A" ∧
    specClusterOf gMulti (gMulti.edges.length + 2) "X" = "B" ∧
    clusterOf gMulti "X" ≠ specClusterOf gMulti (gMulti.edges.length + 2) "X" ∧
    getPreferredParent gMulti "X" = some "B" ∧
    nextParentChoice gMulti "X" = some "M" := by
  decide

/-- C1 (amended): the cluster walk and the preferred-parent chain choose
the same parent at every node with at most one recorded parent; at a
node with several recorded parents the cluster walk takes the first
strictly shallower parent in edge order (falling back to the first
parent), which can differ from the preferred parent, as the
counterexample shows. -/
theorem claim_C1_amended (g : Graph) (id : String)
    (h : (parentByChild g id).length ≤ 1) :
    nextParentChoice g id = getPreferredParent g id := by
  rcases hp : parentByChild g id with _ | ⟨p, _ | ⟨q, t⟩⟩
  · simp [nextParentChoice, getPreferredParent, hp]
  · by_cases hpe : p = ""
    · by_cases hd : dlt (depthById g "") (depthById g id) = true <;>
        simp [nextParentChoice, getPreferredParent, hp, hpe, List.find?, hd]
    · by_cases hd : dlt (depthById g p) (depthById g id) = true <;>
        simp [nextParentChoice, getPreferredParent, hp, hpe, List.find?, hd]
  · rw [hp] at h
    simp at h

/-- Witness for C1 (amended): in `gMulti` the node `M` has the single
parent `A`, and both walks choose it. -/
theorem claim_C1_amended_witness :
    (parentByChild gMulti "M").length ≤ 1 ∧
    nextParentChoice gMulti "M" = getPreferredParent gMulti "M" :=
  ⟨by decide, claim_C1_amended gMulti "M" (by decide)⟩

/-! ### Claim C2 -/

/-- C2: for every selected (truthy) node id the lineage walk follows
`preferredParent` collecting nodes and traversed `(parent, child)`
edges, and the root is always a member of the resulting node set; on the
§8 tree, selecting `C` yields exactly nodes `[C, A, R]` and edges
`[(A, C), (R, A)]`. -/
theorem claim_C2_lineage (g : Graph) (id : String) (hid : id ≠ "") :
    g.root ∈ (updateLineageHighlight g (some id)).1 ∧
    updateLineageHighlight g8 (some "C") =
      (["C", "A", "R"], [("A", "C"), ("R", "A")]) := by
  constructor
  · simp only [updateLineageHighlight, if_neg hid]
    exact mem_setAdd_self _ _
  · decide

/-- Witness for C2 at the selected node `C` of the §8 tree. -/
theorem claim_C2_lineage_witness :
    ("C" : String) ≠ "" ∧
    (g8.root ∈ (updateLineageHighlight g8 (some "C")).1 ∧
      updateLineageHighlight g8 (some "C") =
        (["C", "A", "R"], [("A", "C"), ("R", "A")])) :=
  ⟨by decide, claim_C2_lineage g8 "C" (by decide)⟩

/-! ### Claim C6 -/

/-- C6 counterexample: `gBad` has an edge to the unknown id `Z`; loading
does fail (the simulation is never created and the error panel is
painted), but the node/link DOM join has already happened by then, so
graph initialization does not fail before producing rendered graph
state. -/
theorem claim_C6_counterexample :
    linkEndpointsValid gBad = false ∧
    initGraphEffects gBad =
      [InitEffect.clearCanvas, InitEffect.appendGraphDom, InitEffect.errorPanel] ∧
    InitEffect.appendGraphDom ∈ initGraphEffects gBad := by
  decide

/-- C6 (amended): a dataset with an edge endpoint absent from the node
list is rejected fatally — the force simulation is never created and the
catch handler replaces the container content with the error panel, so no
partial graph remains visible — but the node/link DOM is appended before
the link-force validation throws, so the failure happens after rendered
graph state was produced. -/
theorem claim_C6_amended (g : Graph) (h : linkEndpointsValid g = false) :
    initGraphEffects g =
      [InitEffect.clearCanvas, InitEffect.appendGraphDom, InitEffect.errorPanel] ∧
    InitEffect.simulationCreated ∉ initGraphEffects g ∧
    InitEffect.appendGraphDom ∈ initGraphEffects g := by
  rw [initGraphEffects, if_neg (by simp [h])]
  refine ⟨rfl, by decide, by decide⟩

/-- Witness for C6 (amended) at the malformed dataset `gBad`. -/
theorem claim_C6_amended_witness :
    linkEndpointsValid gBad = false ∧
    (initGraphEffects gBad =
        [InitEffect.clearCanvas, InitEffect.appendGraphDom, InitEffect.errorPanel] ∧
      InitEffect.simulationCreated ∉ initGraphEffects gBad ∧
      InitEffect.appendGraphDom ∈ initGraphEffects gBad) :=
  ⟨by decide, claim_C6_amended gBad (by decide)⟩

/-! ### Claim C10 -/

/-- C10: `selectNode` with a nullish id changes nothing; with a truthy
id absent from the node list it overwrites only `state.selectedNodeId`,
leaving the lineage sets, the highlight classes, the profile card and
the preview untouched — the selection update is not atomic on that
path. -/
theorem claim_C10_selectNode (g : Graph) (st : UIState) (id : String)
    (hid : id ≠ "") (habs : ∀ n ∈ g.nodes, n.id ≠ id) :
    selectNode g st none = st ∧
    selectNode g st (some id) = { st with selectedNodeId := some id } := by
  refine ⟨rfl, ?_⟩
  have hfind : g.nodes.find? (fun n => n.id = id) = none := by
    rw [List.find?_eq_none]
    intro n hn
    simpa using habs n hn
  simp [selectNode, hid, hfind]

/-- Witness for C10: selecting the unknown id `Z` on the §8 tree. -/
theorem claim_C10_selectNode_witness :
    (("Z" : String) ≠ "" ∧ ∀ n ∈ g8.nodes, n.id ≠ "Z") ∧
    (selectNode g8 ⟨none, [], [], none, none, none⟩ none =
        ⟨none, [], [], none, none, none⟩ ∧
      selectNode g8 ⟨none, [], [], none, none, none⟩ (some "Z") =
        ⟨some "Z", [], [], none, none, none⟩) :=
  ⟨⟨by decide, by decide⟩,
    claim_C10_selectNode g8 ⟨none, [], [], none, none, none⟩ "Z"
      (by decide) (by decide)⟩

/-! ### Claim C5 -/

theorem hover_fold_nodes (id : String) (children : List String) :
    ∀ (acc : List String × List (String × String)) (x : String),
      x ∈ (children.foldl
        (fun acc c => (setAdd acc.1 c, setAdd acc.2 (id, c))) acc).1 ↔
        x ∈ acc.1 ∨ x ∈ children := by
  induction children with
  | nil => simp
  | cons c cs ih =>
    intro acc x
    rw [List.foldl_cons, ih]
    simp only [mem_setAdd_iff, List.mem_cons]
    tauto

theorem hover_fold_edges (id : String) (children : List String) :
    ∀ (acc : List String × List (String × String)) (e : String × String),
      e ∈ (children.foldl
        (fun acc c => (setAdd acc.1 c, setAdd acc.2 (id, c))) acc).2 ↔
        e ∈ acc.2 ∨ ∃ c, c ∈ children ∧ e = (id, c) := by
  induction children with
  | nil => simp
  | cons c cs ih =>
    intro acc e
    rw [List.foldl_cons, ih]
    simp only [mem_setAdd_iff, List.mem_cons]
    constructor
    · rintro ((he | rfl) | ⟨c1, hc1, rfl⟩)
      · exact Or.inl he
      · exact Or.inr ⟨c, Or.inl rfl, rfl⟩
      · exact Or.inr ⟨c1, Or.inr hc1, rfl⟩
    · rintro (he | ⟨c1, (rfl | hc1), rfl⟩)
      · exact Or.inl (Or.inl he)
      · exact Or.inl (Or.inr rfl)
      · exact Or.inr ⟨c1, hc1, rfl⟩

/-- C5: the hover overlay of a truthy hovered id relates exactly the
hovered node, its truthy preferred parent (with the `(parent, hovered)`
edge), and all direct children (with their `(hovered, child)` edges);
for a leaf (no recorded children) the related sets are exactly
`{self, preferredParent}` and `{(parent, self)}` with no child
entries. -/
theorem claim_C5_hover (g : Graph) (id : String) (hid : id ≠ "") :
    (∀ x, x ∈ (applyHoverHighlight g (some id)).1 ↔
      (x = id ∨ (∃ p, getPreferredParent g id = some p ∧ p ≠ "" ∧ x = p) ∨
        x ∈ childrenByParent g id)) ∧
    (∀ e, e ∈ (applyHoverHighlight g (some id)).2 ↔
      ((∃ p, getPreferredParent g id = some p ∧ p ≠ "" ∧ e = (p, id)) ∨
        (∃ c, c ∈ childrenByParent g id ∧ e = (id, c)))) ∧
    (childrenByParent g id = [] →
      (∀ x, x ∈ (applyHoverHighlight g (some id)).1 ↔
        (x = id ∨ (∃ p, getPreferredParent g id = some p ∧ p ≠ "" ∧ x = p))) ∧
      (∀ e, e ∈ (applyHoverHighlight g (some id)).2 ↔
        (∃ p, getPreferredParent g id = some p ∧ p ≠ "" ∧ e = (p, id)))) := by
  have hmain :
      (∀ x, x ∈ (applyHoverHighlight g (some id)).1 ↔
        (x = id ∨ (∃ p, getPreferredParent g id = some p ∧ p ≠ "" ∧ x = p) ∨
          x ∈ childrenByParent g id)) ∧
      (∀ e, e ∈ (applyHoverHighlight g (some id)).2 ↔
        ((∃ p, getPreferredParent g id = some p ∧ p ≠ "" ∧ e = (p, id)) ∨
          (∃ c, c ∈ childrenByParent g id ∧ e = (id, c)))) := by
    simp only [applyHoverHighlight, if_neg hid]
    cases hpp : getPreferredParent g id with
    | none =>
      constructor
      · intro x
        rw [hover_fold_nodes]
        simp [hpp]
      · intro e
        rw [hover_fold_edges]
        simp [hpp]
    | some p =>
      by_cases hpe : p = ""
      · subst hpe
        constructor
        · intro x
          rw [hover_fold_nodes]
          simp [hpp]
        · intro e
          rw [hover_fold_edges]
          simp [hpp]
      · constructor
        · intro x
          rw [hover_fold_nodes]
          simp only [if_neg hpe, mem_setAdd_iff, List.mem_singleton, hpp,
            Option.some.injEq]
          constructor
          · rintro ((rfl | hxp) | hc)
            · exact Or.inl rfl
            · exact Or.inr (Or.inl ⟨p, rfl, hpe, hxp⟩)
            · exact Or.inr (Or.inr hc)
          · rintro (rfl | ⟨p1, hp1eq, hp1, rfl⟩ | hc)
            · exact Or.inl (Or.inl rfl)
            · exact Or.inl (Or.inr hp1eq.symm)
            · exact Or.inr hc
        · intro e
          rw [hover_fold_edges]
          simp only [if_neg hpe, List.mem_singleton, hpp, Option.some.injEq]
          constructor
          · rintro (rfl | hc)
            · exact Or.inl ⟨p, rfl, hpe, rfl⟩
            · exact Or.inr hc
          · rintro (⟨p1, hp1eq, hp1, rfl⟩ | hc)
            · rw [← hp1eq]
              exact Or.inl rfl
            · exact Or.inr hc
  refine ⟨hmain.1, hmain.2, ?_⟩
  intro hleaf
  constructor
  · intro x
    rw [hmain.1 x, hleaf]
    simp
  · intro e
    rw [hmain.2 e, hleaf]
    simp

/-- Witness for C5 at the leaf `B` of the §8 tree (preferred parent `R`,
no children). -/
theorem claim_C5_hover_witness :
    ("B" : String) ≠ "" ∧
    ((∀ x, x ∈ (applyHoverHighlight g8 (some "B")).1 ↔
      (x = "B" ∨ (∃ p, getPreferredParent g8 "B" = some p ∧ p ≠ "" ∧ x = p) ∨
        x ∈ childrenByParent g8 "B")) ∧
    (∀ e, e ∈ (applyHoverHighlight g8 (some "B")).2 ↔
      ((∃ p, getPreferredParent g8 "B" = some p ∧ p ≠ "" ∧ e = (p, "B")) ∨
        (∃ c, c ∈ childrenByParent g8 "B" ∧ e = ("B", c)))) ∧
    (childrenByParent g8 "B" = [] →
      (∀ x, x ∈ (applyHoverHighlight g8 (some "B")).1 ↔
        (x = "B" ∨ (∃ p, getPreferredParent g8 "B" = some p ∧ p ≠ "" ∧ x = p))) ∧
      (∀ e, e ∈ (applyHoverHighlight g8 (some "B")).2 ↔
        (∃ p, getPreferredParent g8 "B" = some p ∧ p ≠ "" ∧ e = (p, "B"))))) :=
  ⟨by decide, claim_C5_hover g8 "B" (by decide)⟩

/-! ### Claim C7 -/

/-- C7: when no node has a numerically finite position,
`focusGraphBounds` returns `false` and leaves `currentTransform`
unchanged; when it returns `true` the fitted scale is clamped to the
programmatic range `[0.35, 2]`. -/
theorem claim_C7_fitBounds (ready : Bool) (width height : ℚ)
    (nodes : List CamNode) (t : Transform) (padding maxScale : ℚ) :
    ((∀ n ∈ nodes, n.pos = none) →
      focusGraphBounds ready width height nodes t padding maxScale = (false, t)) ∧
    ((focusGraphBounds ready width height nodes t padding maxScale).1 = true →
      35 / 100 ≤ (focusGraphBounds ready width height nodes t padding maxScale).2.k ∧
      (focusGraphBounds ready width height nodes t padding maxScale).2.k ≤ 2) := by
  constructor
  · intro h
    have hfm : nodes.filterMap (fun n => n.pos) = [] := by
      rw [List.filterMap_eq_nil_iff]
      exact h
    have hb : getGraphBounds nodes = none := by
      unfold getGraphBounds
      by_cases hn : nodes.isEmpty <;> simp [hn, hfm]
    cases ready <;> simp [focusGraphBounds, hb]
  · intro h
    cases ready
    · simp [focusGraphBounds] at h
    · rcases hb : getGraphBounds nodes with _ | b
      · simp [focusGraphBounds, hb] at h
      · by_cases hwh : width = 0 ∨ height = 0
        · simp [focusGraphBounds, hb, hwh] at h
        · simp only [focusGraphBounds, Bool.not_true, Bool.false_eq_true,
            if_false, hb, if_neg hwh]
          exact ⟨le_min (by norm_num) (le_max_left _ _), min_le_left _ _⟩

/-- Witness for C7: a single non-finite node yields `(false, t)` with
`t` untouched, and a successful fit of one positioned node yields a
scale inside `[0.35, 2]`. -/
theorem claim_C7_fitBounds_witness :
    ((∀ n ∈ [CamNode.mk "a" none], n.pos = none) ∧
      focusGraphBounds true 960 720 [CamNode.mk "a" none] ⟨1, 2, 3⟩ 200 (105 / 100) =
        (false, ⟨1, 2, 3⟩)) ∧
    ((focusGraphBounds true 960 720 [CamNode.mk "a" (some (5, 7))] ⟨1, 2, 3⟩ 200
        (105 / 100)).1 = true ∧
      35 / 100 ≤ (focusGraphBounds true 960 720 [CamNode.mk "a" (some (5, 7))]
        ⟨1, 2, 3⟩ 200 (105 / 100)).2.k ∧
      (focusGraphBounds true 960 720 [CamNode.mk "a" (some (5, 7))] ⟨1, 2, 3⟩ 200
        (105 / 100)).2.k ≤ 2) :=
  ⟨⟨by decide, (claim_C7_fitBounds true 960 720 [CamNode.mk "a" none]
      ⟨1, 2, 3⟩ 200 (105 / 100)).1 (by decide)⟩,
    by
      refine ⟨by decide, (claim_C7_fitBounds true 960 720
        [CamNode.mk "a" (some (5, 7))] ⟨1, 2, 3⟩ 200 (105 / 100)).2 (by decide)⟩⟩

/-! ### Claim C8 -/

theorem normalizeValue_le_one (value maxValue : ℚ) :
    normalizeValue value maxValue ≤ 1 := by
  unfold normalizeValue
  split
  · norm_num
  · split
    · norm_num
    · exact min_le_left _ _

theorem normalizeInfluence_le_one (n : Option GNode) (m : ℚ) :
    normalizeInfluence n m ≤ 1 := by
  rcases n with _ | node
  · simp [normalizeInfluence]
  · by_cases hm : m = 0
    · simp [normalizeInfluence, hm]
    · simpa [normalizeInfluence, hm] using
        normalizeValue_le_one (computeInfluenceScore node) m

theorem linkBaseDistance_nonneg (g : Graph) (src dst : String) :
    0 ≤ linkBaseDistance g src dst := by
  simp only [linkBaseDistance]
  split
  · norm_num
  · split
    · norm_num
    · positivity

/-- C8: the target separation of a link is 220 when the source depth is
0 (the root), 160 when the source depth is 1 (a direct child of root)
and the target is deeper, and `90 + 30 × targetDepth` otherwise, all
multiplied by `1 + 0.6 ×` the source node influence score normalized
against the dataset-wide maximum; hence the distance exceeds the base by
at most 60%. -/
theorem claim_C8_linkDistance (g : Graph) (src dst : String) :
    ((depthById g src).getD 0 = 0 →
      linkDistance g src dst =
        220 * (1 + normalizeInfluence (nodesById g src) (maxInfluence g) * (6 / 10))) ∧
    ((depthById g src).getD 0 = 1 → 1 < (depthById g dst).getD 0 →
      linkDistance g src dst =
        160 * (1 + normalizeInfluence (nodesById g src) (maxInfluence g) * (6 / 10))) ∧
    ((depthById g src).getD 0 ≠ 0 →
      ¬((depthById g src).getD 0 = 1 ∧ 1 < (depthById g dst).getD 0) →
      linkDistance g src dst =
        (90 + ((depthById g dst).getD 0 : ℚ) * 30) *
          (1 + normalizeInfluence (nodesById g src) (maxInfluence g) * (6 / 10))) ∧
    linkDistance g src dst ≤ linkBaseDistance g src dst * (16 / 10) := by
  refine ⟨?_, ?_, ?_, ?_⟩
  · intro h0
    simp only [linkDistance, linkBaseDistance, h0]
    norm_num
  · intro h1 hdeep
    simp only [linkDistance, linkBaseDistance, h1]
    rw [if_neg (by norm_num), if_pos (show _ ∧ _ from ⟨by trivial, hdeep⟩)]
  · intro h0 h1
    simp only [linkDistance, linkBaseDistance]
    rw [if_neg h0, if_neg h1]
  · simp only [linkDistance]
    have hb := normalizeInfluence_le_one (nodesById g src) (maxInfluence g)
    have : (1 + normalizeInfluence (nodesById g src) (maxInfluence g) * (6 / 10)) ≤
        16 / 10 := by linarith
    exact mul_le_mul_of_nonneg_left this (linkBaseDistance_nonneg g src dst)

/-- Witness for C8: the three depth cases at concrete links of the
example datasets (root link `R→A`, depth-1 link `A→C`, deep link
`M→X`). -/
theorem claim_C8_linkDistance_witness :
    (linkDistance g8 "R" "A" =
      220 * (1 + normalizeInfluence (nodesById g8 "R") (maxInfluence g8) * (6 / 10))) ∧
    (linkDistance g8 "A" "C" =
      160 * (1 + normalizeInfluence (nodesById g8 "A") (maxInfluence g8) * (6 / 10))) ∧
    (linkDistance gMulti "M" "X" =
      (90 + ((depthById gMulti "X").getD 0 : ℚ) * 30) *
        (1 + normalizeInfluence (nodesById gMulti "M") (maxInfluence gMulti) * (6 / 10))) :=
  ⟨(claim_C8_linkDistance g8 "R" "A").1 (by decide),
    (claim_C8_linkDistance g8 "A" "C").2.1 (by decide) (by decide),
    (claim_C8_linkDistance gMulti "M" "X").2.2.1 (by decide) (by decide)⟩

/-! ### Claim C9 -/

/-- The §8 tree with equal (zero) influence data on all nodes: same
shape as `g8`, but no recorded descendant counts. -/
def g8eq : Graph :=
  { root := "R"
    nodes := [⟨"R", 0, 0, 0⟩, ⟨"A", 1, 0, 0⟩, ⟨"B", 1, 0, 0⟩, ⟨"C", 2, 0, 0⟩]
    edges := [⟨"R", "A"⟩, ⟨"R", "B"⟩, ⟨"A", "C"⟩] }

/-- C9 counterexample: with exact quarter-turn trig values and the
faithful §8 dataset (where `A` has child `C`, so its influence score 1.5
exceeds the 0 of `B`), the cluster anchors recomputed for the 480×360
viewport are not symmetric about the root anchor `(240, 180)`: the
radius of `A` is inflated by the full 60% influence boost while the
radius of `B` is not. -/
theorem claim_C9_counterexample :
    centersGet (computeClusterCenters cosTurn sinTurn 480 360
      (directAdvisees g8) "R") "A" = some (240, -108 / 25) ∧
    centersGet (computeClusterCenters cosTurn sinTurn 480 360
      (directAdvisees g8) "R") "B" = some (240, 1476 / 5) ∧
    centersGet (computeClusterCenters cosTurn sinTurn 480 360
      (directAdvisees g8) "R") "R" = some (240, 180) ∧
    ¬((-108 / 25 : ℚ) + 1476 / 5 = 2 * 180) := by
  have hda : directAdvisees g8 = [⟨"A", 1, 1, 1⟩, ⟨"B", 1, 0, 0⟩] := by decide
  rw [hda]
  refine ⟨?_, ?_, ?_, by norm_num⟩ <;>
    simp [computeClusterCenters, placeAdvisee, centersGet, cosTurn, sinTurn,
      normalizeInfluence, normalizeValue, computeInfluenceScore, List.filter,
      List.getLast?, min_def, max_def] <;>
    norm_num

/-- C9 (amended): on resize from 960×720 to 480×360 the recomputed
anchors of `A` and `B` scale down proportionally with the viewport
(each offset from the root anchor exactly halves), and they are
symmetric about the root anchor when `A` and `B` have equal influence
scores; with the faithful §8 influence data (`A` has a child) the
symmetry fails, as the counterexample shows. -/
theorem claim_C9_amended (cosF sinF : ℚ → ℚ)
    (hc : cosF (-1 / 4) + cosF (1 / 4) = 0)
    (hs : sinF (-1 / 4) + sinF (1 / 4) = 0) :
    ((((centersGet (computeClusterCenters cosF sinF 480 360
          (directAdvisees g8) "R") "A").getD 0).1 - 240) * 2 =
        ((centersGet (computeClusterCenters cosF sinF 960 720
          (directAdvisees g8) "R") "A").getD 0).1 - 480 ∧
      (((centersGet (computeClusterCenters cosF sinF 480 360
          (directAdvisees g8) "R") "A").getD 0).2 - 180) * 2 =
        ((centersGet (computeClusterCenters cosF sinF 960 720
          (directAdvisees g8) "R") "A").getD 0).2 - 360 ∧
      (((centersGet (computeClusterCenters cosF sinF 480 360
          (directAdvisees g8) "R") "B").getD 0).1 - 240) * 2 =
        ((centersGet (computeClusterCenters cosF sinF 960 720
          (directAdvisees g8) "R") "B").getD 0).1 - 480 ∧
      (((centersGet (computeClusterCenters cosF sinF 480 360
          (directAdvisees g8) "R") "B").getD 0).2 - 180) * 2 =
        ((centersGet (computeClusterCenters cosF sinF 960 720
          (directAdvisees g8) "R") "B").getD 0).2 - 360) ∧
    (((centersGet (computeClusterCenters cosF sinF 480 360
          (directAdvisees g8eq) "R") "A").getD 0).1 +
        ((centersGet (computeClusterCenters cosF sinF 480 360
          (directAdvisees g8eq) "R") "B").getD 0).1 = 2 * 240 ∧
      ((centersGet (computeClusterCenters cosF sinF 480 360
          (directAdvisees g8eq) "R") "A").getD 0).2 +
        ((centersGet (computeClusterCenters cosF sinF 480 360
          (directAdvisees g8eq) "R") "B").getD 0).2 = 2 * 180 ∧
      ((centersGet (computeClusterCenters cosF sinF 960 720
          (directAdvisees g8eq) "R") "A").getD 0).1 +
        ((centersGet (computeClusterCenters cosF sinF 960 720
          (directAdvisees g8eq) "R") "B").getD 0).1 = 2 * 480 ∧
      ((centersGet (computeClusterCenters cosF sinF 960 720
          (directAdvisees g8eq) "R") "A").getD 0).2 +
        ((centersGet (computeClusterCenters cosF sinF 960 720
          (directAdvisees g8eq) "R") "B").getD 0).2 = 2 * 360) := by
  have hda : directAdvisees g8 = [⟨"A", 1, 1, 1⟩, ⟨"B", 1, 0, 0⟩] := by decide
  have hdaeq : directAdvisees g8eq = [⟨"A", 1, 0, 0⟩, ⟨"B", 1, 0, 0⟩] := by
    decide
  rw [hda, hdaeq]
  have hc1 := hc
  have hs1 := hs
  ring_nf at hc1 hs1
  refine ⟨⟨?_, ?_, ?_, ?_⟩, ?_, ?_, ?_, ?_⟩
  all_goals
    simp [computeClusterCenters, placeAdvisee, centersGet, normalizeInfluence,
      normalizeValue, computeInfluenceScore, List.filter, List.getLast?,
      min_def, max_def]
  all_goals try norm_num
  all_goals try ring_nf
  all_goals linarith

/-- Witness for C9 (amended), instantiated with the exact quarter-turn
trig values. -/
theorem claim_C9_amended_witness :
    (cosTurn (-1 / 4) + cosTurn (1 / 4) = 0 ∧
      sinTurn (-1 / 4) + sinTurn (1 / 4) = 0) ∧
    ((((centersGet (computeClusterCenters cosTurn sinTurn 480 360
          (directAdvisees g8) "R") "A").getD 0).1 - 240) * 2 =
        ((centersGet (computeClusterCenters cosTurn sinTurn 960 720
          (directAdvisees g8) "R") "A").getD 0).1 - 480 ∧
      (((centersGet (computeClusterCenters cosTurn sinTurn 480 360
          (directAdvisees g8) "R") "A").getD 0).2 - 180) * 2 =
        ((centersGet (computeClusterCenters cosTurn sinTurn 960 720
          (directAdvisees g8) "R") "A").getD 0).2 - 360 ∧
      (((centersGet (computeClusterCenters cosTurn sinTurn 480 360
          (directAdvisees g8) "R") "B").getD 0).1 - 240) * 2 =
        ((centersGet (computeClusterCenters cosTurn sinTurn 960 720
          (directAdvisees g8) "R") "B").getD 0).1 - 480 ∧
      (((centersGet (computeClusterCenters cosTurn sinTurn 480 360
          (directAdvisees g8) "R") "B").getD 0).2 - 180) * 2 =
        ((centersGet (computeClusterCenters cosTurn sinTurn 960 720
          (directAdvisees g8) "R") "B").getD 0).2 - 360) ∧
    (((centersGet (computeClusterCenters cosTurn sinTurn 480 360
          (directAdvisees g8eq) "R") "A").getD 0).1 +
        ((centersGet (computeClusterCenters cosTurn sinTurn 480 360
          (directAdvisees g8eq) "R") "B").getD 0).1 = 2 * 240 ∧
      ((centersGet (computeClusterCenters cosTurn sinTurn 480 360
          (directAdvisees g8eq) "R") "A").getD 0).2 +
        ((centersGet (computeClusterCenters cosTurn sinTurn 480 360
          (directAdvisees g8eq) "R") "B").getD 0).2 = 2 * 180 ∧
      ((centersGet (computeClusterCenters cosTurn sinTurn 960 720
          (directAdvisees g8eq) "R") "A").getD 0).1 +
        ((centersGet (computeClusterCenters cosTurn sinTurn 960 720
          (directAdvisees g8eq) "R") "B").getD 0).1 = 2 * 480 ∧
      ((centersGet (computeClusterCenters cosTurn sinTurn 960 720
          (directAdvisees g8eq) "R") "A").getD 0).2 +
        ((centersGet (computeClusterCenters cosTurn sinTurn 960 720
          (directAdvisees g8eq) "R") "B").getD 0).2 = 2 * 360) :=
  ⟨⟨by norm_num [cosTurn], by norm_num [sinTurn]⟩,
    claim_C9_amended cosTurn sinTurn (by norm_num [cosTurn])
      (by norm_num [sinTurn])⟩

/-! ### Claim C3: the cluster-cache invariant -/

/-- The property of the current node at the moment the cluster walk
breaks with `clusterCandidate = current`: it is not the root, the chosen
parent is the (truthy) root, so the walk from it resolves to itself. -/
def directBreak (g : Graph) (c : String) : Prop :=
  c ≠ g.root ∧ g.root ≠ "" ∧ nextParentChoice g c = some g.root

theorem nextParentChoice_mem (g : Graph) (c np : String)
    (h : nextParentChoice g c = some np) : np ∈ parentByChild g c := by
  unfold nextParentChoice at h
  cases hl : parentByChild g c with
  | nil => rw [hl] at h; cases h
  | cons x xs =>
    rw [hl] at h
    simp only [List.head?_cons] at h
    injection h with h1
    cases hf : (x :: xs).find? (fun p => dlt (depthById g p) (depthById g c)) with
    | some q =>
      rw [hf] at h1
      simp only [Option.getD_some] at h1
      rw [← h1]
      exact List.mem_of_find?_eq_some hf
    | none =>
      rw [hf] at h1
      simp only [Option.getD_none] at h1
      rw [← h1]
      exact List.mem_cons_self x xs

theorem clusterWalk_result (g : Graph) :
    ∀ (fuel : Nat) (visited : List String) (current : String),
      current ≠ g.root →
      (clusterWalk g fuel visited current).1 = g.root ∨
        directBreak g (clusterWalk g fuel visited current).1 := by
  intro fuel
  induction fuel with
  | zero => intro visited current _; exact Or.inl rfl
  | succ fuel ih =>
    intro visited current hcur
    rw [clusterWalk]
    cases hnp : nextParentChoice g current with
    | none => exact Or.inl rfl
    | some np =>
      dsimp only
      by_cases hguard : np = "" ∨ np ∈ visited
      · rw [if_pos hguard]
        exact Or.inl rfl
      · rw [if_neg hguard]
        by_cases hroot : np = g.root
        · rw [if_pos hroot]
          right
          refine ⟨hcur, ?_, ?_⟩
          · intro h0
            exact hguard (Or.inl (hroot.trans h0))
          · rw [hnp, hroot]
        · rw [if_neg hroot]
          exact ih (visited ++ [np]) np hroot

theorem clusterWalk_visited_not_root (g : Graph) :
    ∀ (fuel : Nat) (visited : List String) (current : String),
      g.root ∉ visited → g.root ∉ (clusterWalk g fuel visited current).2 := by
  intro fuel
  induction fuel with
  | zero => intro _ _ _ h; exact List.not_mem_nil _ h
  | succ fuel ih =>
    intro visited current hv
    rw [clusterWalk]
    cases nextParentChoice g current with
    | none => exact hv
    | some np =>
      dsimp only
      by_cases hguard : np = "" ∨ np ∈ visited
      · rw [if_pos hguard]; exact hv
      · rw [if_neg hguard]
        by_cases hroot : np = g.root
        · rw [if_pos hroot]; exact hv
        · rw [if_neg hroot]
          refine ih (visited ++ [np]) np ?_
          intro hmem
          rcases List.mem_append.mp hmem with h | h
          · exact hv h
          · rw [List.mem_singleton] at h
            exact hroot h.symm

theorem clusterWalk_visited_break (g : Graph) :
    ∀ (fuel : Nat) (visited : List String) (current : String),
      g.root ∉ visited →
      (∀ k ∈ visited, directBreak g k → k = current) →
      ∀ k ∈ (clusterWalk g fuel visited current).2,
        directBreak g k → (clusterWalk g fuel visited current).1 = k := by
  intro fuel
  induction fuel with
  | zero =>
    intro visited current _ _ k hk
    exact absurd hk (List.not_mem_nil k)
  | succ fuel ih =>
    intro visited current hrnv hinv
    rw [clusterWalk]
    cases hnp : nextParentChoice g current with
    | none =>
      intro k hk hdb
      have hkc := hinv k hk hdb
      rw [← hkc] at hnp
      rw [hdb.2.2] at hnp
      exact Option.noConfusion hnp
    | some np =>
      dsimp only
      by_cases hguard : np = "" ∨ np ∈ visited
      · rw [if_pos hguard]
        intro k hk hdb
        have hkc := hinv k hk hdb
        rw [← hkc] at hnp
        rw [hdb.2.2] at hnp
        injection hnp with he
        rcases hguard with h0 | hmem
        · exact absurd (he.trans h0) hdb.2.1
        · exact absurd (he ▸ hmem) hrnv
      · rw [if_neg hguard]
        by_cases hroot : np = g.root
        · rw [if_pos hroot]
          intro k hk hdb
          exact (hinv k hk hdb).symm
        · rw [if_neg hroot]
          refine ih (visited ++ [np]) np ?_ ?_
          · intro hmem
            rcases List.mem_append.mp hmem with h | h
            · exact hrnv h
            · rw [List.mem_singleton] at h
              exact hroot h.symm
          · intro k hk hdb
            rcases List.mem_append.mp hk with h | h
            · have hkc := hinv k h hdb
              rw [← hkc] at hnp
              rw [hdb.2.2] at hnp
              injection hnp with he
              exact absurd he.symm hroot
            · rw [List.mem_singleton] at h
              exact h

theorem clusterWalk_of_directBreak (g : Graph) (fuel : Nat)
    (visited : List String) (current : String) (h : directBreak g current)
    (hv : g.root ∉ visited) :
    clusterWalk g (fuel + 1) visited current = (current, visited) := by
  rw [clusterWalk, h.2.2]
  dsimp only
  rw [if_neg (show ¬(g.root = "" ∨ g.root ∈ visited) from
    fun hor => hor.elim h.2.1 hv), if_pos rfl]

theorem cacheGet_set_self (c : Cache) (k v : String) :
    cacheGet (cacheSet c k v) k = some v := by
  unfold cacheGet cacheSet
  rw [List.find?_cons_of_pos]
  · rfl
  · simp

theorem cacheGet_set_ne (c : Cache) (k v k1 : String) (h : k1 ≠ k) :
    cacheGet (cacheSet c k v) k1 = cacheGet c k1 := by
  unfold cacheGet cacheSet
  rw [List.find?_cons_of_neg _ (by simp only [decide_eq_true_eq]; exact Ne.symm h)]

/-- The invariant maintained by every cluster-cache state `initGraph`
produces: the root maps to itself, every cached value is the root or a
direct-break node, and a cached direct-break node maps to itself. -/
def goodCache (g : Graph) (cache : Cache) : Prop :=
  cacheGet cache g.root = some g.root ∧
  ∀ k v, cacheGet cache k = some v →
    (v = g.root ∨ directBreak g v) ∧ (directBreak g k → v = k)

theorem goodCache_foldVisited (g : Graph) (resolved : String)
    (hres : resolved = g.root ∨ directBreak g resolved) :
    ∀ (l : List String) (c : Cache), goodCache g c →
      (∀ k ∈ l, directBreak g k → resolved = k) →
      goodCache g (l.foldl
        (fun c v => if (cacheGet c v).isSome then c
          else cacheSet c v (if v = g.root then g.root else resolved)) c) := by
  intro l
  induction l with
  | nil => intro c hc _; exact hc
  | cons a l ih =>
    intro c hc hl
    rw [List.foldl_cons]
    refine ih _ ?_ (fun k hk hdb => hl k (List.mem_cons_of_mem a hk) hdb)
    by_cases hmem : (cacheGet c a).isSome
    · rw [if_pos hmem]; exact hc
    · rw [if_neg hmem]
      constructor
      · by_cases ha : a = g.root
        · subst ha
          rw [cacheGet_set_self, if_pos rfl]
        · rw [cacheGet_set_ne _ _ _ _ (fun hh => ha hh.symm)]
          exact hc.1
      · intro k v hkv
        by_cases hka : k = a
        · subst hka
          rw [cacheGet_set_self] at hkv
          injection hkv with hv
          by_cases hkr : k = g.root
          · rw [if_pos hkr] at hv
            constructor
            · exact Or.inl hv.symm
            · intro hdb
              exact absurd hkr hdb.1
          · rw [if_neg hkr] at hv
            constructor
            · rw [← hv]; exact hres
            · intro hdb
              rw [← hv]
              exact hl k (List.mem_cons_self _ _) hdb
        · rw [cacheGet_set_ne _ _ _ _ hka] at hkv
          exact hc.2 k v hkv

theorem getClusterId_cached (g : Graph) (c : Cache) (n v : String)
    (h : cacheGet c n = some v) : (getClusterId g c n).1 = v := by
  unfold getClusterId
  rw [h]

theorem getClusterId_uncached (g : Graph) (c : Cache) (n : String)
    (hmiss : cacheGet c n = none) (hnr : n ≠ g.root) :
    (getClusterId g c n).1 = (clusterWalk g (g.edges.length + 2) [n] n).1 := by
  unfold getClusterId
  rw [hmiss, if_neg hnr]

theorem goodCache_getClusterId (g : Graph) (c : Cache) (n : String)
    (h : goodCache g c) :
    goodCache g (getClusterId g c n).2 ∧
    ((getClusterId g c n).1 = g.root ∨ directBreak g (getClusterId g c n).1) ∧
    (directBreak g n → (getClusterId g c n).1 = n) := by
  rcases hget : cacheGet c n with _ | v
  · by_cases hnr : n = g.root
    · rw [hnr, h.1] at hget
      exact Option.noConfusion hget
    · have hrootnv : g.root ∉ [n] := by
        intro hmem
        rw [List.mem_singleton] at hmem
        exact hnr hmem.symm
      have hres := clusterWalk_result g (g.edges.length + 2) [n] n hnr
      have hbrk : ∀ k ∈ (clusterWalk g (g.edges.length + 2) [n] n).2,
          directBreak g k → (clusterWalk g (g.edges.length + 2) [n] n).1 = k := by
        refine clusterWalk_visited_break g _ _ _ hrootnv ?_
        intro k hk _
        rw [List.mem_singleton] at hk
        exact hk
      have hdbn : directBreak g n →
          (clusterWalk g (g.edges.length + 2) [n] n).1 = n := by
        intro hdb
        rw [show g.edges.length + 2 = (g.edges.length + 1) + 1 from rfl,
          clusterWalk_of_directBreak g (g.edges.length + 1) [n] n hdb hrootnv]
      have h1 : getClusterId g c n =
          ((clusterWalk g (g.edges.length + 2) [n] n).1,
            cacheSet ((clusterWalk g (g.edges.length + 2) [n] n).2.foldl
              (fun c v => if (cacheGet c v).isSome then c
                else cacheSet c v
                  (if v = g.root then g.root
                    else (clusterWalk g (g.edges.length + 2) [n] n).1)) c)
              n (clusterWalk g (g.edges.length + 2) [n] n).1) := by
        unfold getClusterId
        rw [hget, if_neg hnr]
      rw [h1]
      have hcache1 := goodCache_foldVisited g
        (clusterWalk g (g.edges.length + 2) [n] n).1 hres
        (clusterWalk g (g.edges.length + 2) [n] n).2 c h
        (fun k hk hdb => hbrk k hk hdb)
      refine ⟨⟨?_, ?_⟩, hres, hdbn⟩
      · rw [cacheGet_set_ne _ _ _ _ (fun hh => hnr hh.symm)]
        exact hcache1.1
      · intro k v hkv
        by_cases hkn : k = n
        · subst hkn
          rw [cacheGet_set_self] at hkv
          injection hkv with hv
          constructor
          · rw [← hv]; exact hres
          · intro hdb
            rw [← hv]
            exact hdbn hdb
        · rw [cacheGet_set_ne _ _ _ _ hkn] at hkv
          exact hcache1.2 k v hkv
  · have h1 : getClusterId g c n = (v, c) := by
      unfold getClusterId
      rw [hget]
    rw [h1]
    have hv := h.2 n v hget
    exact ⟨h, hv.1, hv.2⟩

theorem goodCache_foldNodes (g : Graph) :
    ∀ (l : List GNode) (c : Cache), goodCache g c →
      goodCache g (l.foldl (fun c n => (getClusterId g c n.id).2) c) := by
  intro l
  induction l with
  | nil => intro c hc; exact hc
  | cons a l ih =>
    intro c hc
    rw [List.foldl_cons]
    exact ih _ (goodCache_getClusterId g c a.id hc).1

theorem goodCache_initClusterCache (g : Graph) :
    goodCache g (initClusterCache g) := by
  unfold initClusterCache
  refine goodCache_foldNodes g _ _ ⟨cacheGet_set_self _ _ _, ?_⟩
  intro k v hkv
  by_cases hk : k = g.root
  · subst hk
    rw [cacheGet_set_self] at hkv
    injection hkv with hv
    constructor
    · exact Or.inl hv.symm
    · intro _
      exact hv.symm
  · rw [cacheGet_set_ne _ _ _ _ hk] at hkv
    simp [cacheGet] at hkv

/-- C3: for every id (in particular every dataset node id), the assigned
cluster is the root or a node having the root among its recorded
parents, `clusterOf` is idempotent, and the cluster of the root is the
root itself. -/
theorem claim_C3_cluster (g : Graph) (id : String) :
    (clusterOf g id = g.root ∨ g.root ∈ parentByChild g (clusterOf g id)) ∧
    clusterOf g (clusterOf g id) = clusterOf g id ∧
    clusterOf g g.root = g.root := by
  have hgood := goodCache_initClusterCache g
  have hmain := goodCache_getClusterId g (initClusterCache g) id hgood
  have hrootclu : clusterOf g g.root = g.root :=
    getClusterId_cached g _ _ _ hgood.1
  unfold clusterOf
  unfold clusterOf at hrootclu
  refine ⟨?_, ?_, hrootclu⟩
  · rcases hmain.2.1 with h | h
    · exact Or.inl h
    · exact Or.inr (nextParentChoice_mem g _ _ h.2.2)
  · rcases hmain.2.1 with h | h
    · rw [h]
      exact hrootclu
    · cases hget2 : cacheGet (initClusterCache g)
        (getClusterId g (initClusterCache g) id).1 with
      | none =>
        have hnr := h.1
        have hrootnv : g.root ∉ [(getClusterId g (initClusterCache g) id).1] := by
          intro hmem
          rw [List.mem_singleton] at hmem
          exact hnr hmem.symm
        rw [getClusterId_uncached g _ _ hget2 hnr,
          show g.edges.length + 2 = (g.edges.length + 1) + 1 from rfl,
          clusterWalk_of_directBreak g (g.edges.length + 1) _ _ h hrootnv]
      | some v =>
        rw [getClusterId_cached g _ _ _ hget2]
        exact (hgood.2 _ v hget2).2 h

/-! ### Claim C4 -/

/-- The preference order of `getPreferredParent`: strictly smaller depth
first, ties broken by the lexicographically smaller id (a missing depth
reads as infinity). -/
def prefLE (g : Graph) (p q : String) : Prop :=
  dlt (depthById g p) (depthById g q) = true ∨
    (deq (depthById g p) (depthById g q) = true ∧ p ≤ q)

theorem dlt_trans {a b c : Option Nat} (h1 : dlt a b = true)
    (h2 : dlt b c = true) : dlt a c = true := by
  cases a <;> cases b <;> cases c <;> simp [dlt] at * <;> omega

theorem dlt_of_dlt_of_deq {a b c : Option Nat} (h1 : dlt a b = true)
    (h2 : deq b c = true) : dlt a c = true := by
  cases a <;> cases b <;> cases c <;> simp [dlt, deq] at * <;> omega

theorem dlt_of_deq_of_dlt {a b c : Option Nat} (h1 : deq a b = true)
    (h2 : dlt b c = true) : dlt a c = true := by
  cases a <;> cases b <;> cases c <;> simp [dlt, deq] at * <;> omega

theorem deq_trans {a b c : Option Nat} (h1 : deq a b = true)
    (h2 : deq b c = true) : deq a c = true := by
  cases a <;> cases b <;> cases c <;> simp [deq] at * <;> omega

theorem deq_symm {a b : Option Nat} (h : deq a b = true) : deq b a = true := by
  cases a <;> cases b <;> simp [deq] at * <;> omega

theorem deq_refl (a : Option Nat) : deq a a = true := by
  cases a <;> simp [deq]

theorem dlt_deq_total (a b : Option Nat) :
    dlt a b = true ∨ deq a b = true ∨ dlt b a = true := by
  cases a <;> cases b <;> simp [dlt, deq] <;> omega

theorem prefLE_refl (g : Graph) (p : String) : prefLE g p p :=
  Or.inr ⟨deq_refl _, le_refl p⟩

theorem prefLE_trans (g : Graph) {a b c : String} (h1 : prefLE g a b)
    (h2 : prefLE g b c) : prefLE g a c := by
  rcases h1 with h1 | ⟨h1, h1le⟩
  · rcases h2 with h2 | ⟨h2, _⟩
    · exact Or.inl (dlt_trans h1 h2)
    · exact Or.inl (dlt_of_dlt_of_deq h1 h2)
  · rcases h2 with h2 | ⟨h2, h2le⟩
    · exact Or.inl (dlt_of_deq_of_dlt h1 h2)
    · exact Or.inr ⟨deq_trans h1 h2, le_trans h1le h2le⟩

theorem preferredFold_min (g : Graph) :
    ∀ (l : List String) (b0 : String), (∀ p ∈ l, p ≠ "") →
      ∃ b, l.foldl
        (fun currentBest candidate =>
          if candidate = "" then currentBest
          else
            match currentBest with
            | none => some candidate
            | some cb =>
              if dlt (depthById g candidate) (depthById g cb) then some candidate
              else if deq (depthById g candidate) (depthById g cb) then
                (if candidate < cb then some candidate else some cb)
              else some cb)
        (some b0) = some b ∧ (b = b0 ∨ b ∈ l) ∧ prefLE g b b0 ∧
        ∀ q ∈ l, prefLE g b q := by
  intro l
  induction l with
  | nil =>
    intro b0 _
    exact ⟨b0, rfl, Or.inl rfl, prefLE_refl g b0, by intro q hq; cases hq⟩
  | cons a l ih =>
    intro b0 hnb
    rw [List.foldl_cons]
    have ha : a ≠ "" := hnb a (List.mem_cons_self _ _)
    have step :
        ∃ b1, (if a = "" then some b0
          else
            match some b0 with
            | none => some a
            | some cb =>
              if dlt (depthById g a) (depthById g cb) then some a
              else if deq (depthById g a) (depthById g cb) then
                (if a < cb then some a else some cb)
              else some cb) = some b1 ∧
          (b1 = b0 ∨ b1 = a) ∧ prefLE g b1 b0 ∧ prefLE g b1 a := by
      rw [if_neg ha]
      by_cases hd : dlt (depthById g a) (depthById g b0) = true
      · refine ⟨a, by simp [hd], Or.inr rfl, Or.inl hd, prefLE_refl g a⟩
      · by_cases he : deq (depthById g a) (depthById g b0) = true
        · by_cases hlt : a < b0
          · refine ⟨a, by simp [hd, he, hlt], Or.inr rfl,
              Or.inr ⟨he, le_of_lt hlt⟩, prefLE_refl g a⟩
          · refine ⟨b0, by simp [hd, he, hlt], Or.inl rfl, prefLE_refl g b0,
              Or.inr ⟨deq_symm he, le_of_not_lt hlt⟩⟩
        · have hd2 : dlt (depthById g b0) (depthById g a) = true := by
            rcases dlt_deq_total (depthById g a) (depthById g b0) with h | h | h
            · exact absurd h hd
            · exact absurd h he
            · exact h
          refine ⟨b0, by simp [hd, he], Or.inl rfl, prefLE_refl g b0, Or.inl hd2⟩
    rcases step with ⟨b1, hb1eq, hb1or, hb1b0, hb1a⟩
    rw [hb1eq]
    rcases ih b1 (fun p hp => hnb p (List.mem_cons_of_mem a hp)) with
      ⟨b, hbeq, hbor, hbb1, hbl⟩
    refine ⟨b, hbeq, ?_, prefLE_trans g hbb1 hb1b0, ?_⟩
    · rcases hbor with rfl | hbl2
      · rcases hb1or with rfl | rfl
        · exact Or.inl rfl
        · exact Or.inr (List.mem_cons_self _ _)
      · exact Or.inr (List.mem_cons_of_mem a hbl2)
    · intro q hq
      rcases List.mem_cons.mp hq with rfl | hql
      · exact prefLE_trans g hbb1 hb1a
      · exact hbl q hql

/-- C4: `getPreferredParent` returns null exactly when a node has no
recorded incoming edges (in a well-formed dataset this covers the root,
which has none); for a node with at least one recorded (truthy) parent
it returns a parent that is minimal for the depth-then-lexicographic
order, and the choice is a pure function of the adjacency and depth
maps. -/
theorem claim_C4_preferredParent (g : Graph) (id : String) :
    (parentByChild g id = [] → getPreferredParent g id = none) ∧
    (parentByChild g id ≠ [] → (∀ p ∈ parentByChild g id, p ≠ "") →
      ∃ b, getPreferredParent g id = some b ∧ b ∈ parentByChild g id ∧
        ∀ q ∈ parentByChild g id, prefLE g b q) := by
  constructor
  · intro h
    simp [getPreferredParent, h]
  · intro hne hnb
    simp only [getPreferredParent]
    cases hl : parentByChild g id with
    | nil => exact absurd hl hne
    | cons p rest =>
      rw [hl] at hnb
      have hp : p ≠ "" := hnb p (List.mem_cons_self _ _)
      rcases preferredFold_min g rest p
          (fun q hq => hnb q (List.mem_cons_of_mem p hq)) with
        ⟨b, hbeq, hbor, hbp, hbrest⟩
      refine ⟨b, ?_, ?_, ?_⟩
      · rw [if_neg (by simp), List.foldl_cons]
        dsimp only
        rw [if_neg hp]
        rw [hbeq]
      · rcases hbor with rfl | hb
        · exact List.mem_cons_self _ _
        · exact List.mem_cons_of_mem p hb
      · intro q hq
        rcases List.mem_cons.mp hq with rfl | hql
        · exact hbp
        · exact hbrest q hql

/-- Witness for C4: in `gMulti` the node `X` has the nonempty parent
list `[M, B]` and the preferred parent `B` is the minimal one. -/
theorem claim_C4_preferredParent_witness :
    (parentByChild gMulti "X" ≠ [] ∧ ∀ p ∈ parentByChild gMulti "X", p ≠ "") ∧
    (∃ b, getPreferredParent gMulti "X" = some b ∧
      b ∈ parentByChild gMulti "X" ∧
      ∀ q ∈ parentByChild gMulti "X", prefLE gMulti b q) :=
  ⟨⟨by decide, by decide⟩,
    (claim_C4_preferredParent gMulti "X").2 (by decide) (by decide)⟩

end AdvisorTree
